import Mathlib

/-!
Verification of the data-freshness layer of the pipeline-monitor desktop
client: the TTL response cache (`src/main/cache.ts`), the cached/deduplicated
fetch coordinator (`src/main/ipc-handlers.ts`), the build-state change
detector / notifier (`notifier.ts`), the tray-icon listener (`index.ts`) and
the renderer-side polling hook (`src/renderer/src/hooks/useJenkins.ts`).

Times are modelled as natural numbers of milliseconds.  JavaScript's
`now - timestamp > ttl` comparison coincides with truncated `Nat`
subtraction here because every stored timestamp is a `Date.now()` value
taken no later than the `now` of the comparison, and every TTL used by the
program is non-negative; when `now < timestamp`, both JavaScript (negative
difference) and `Nat` (result `0`) judge the entry unexpired.

Maps (`Map<string, …>`) are modelled as association lists whose operations
mirror the JavaScript `Map` API: `set` replaces any previous binding,
`delete` removes the binding, lookup finds the current binding.
-/

namespace PipelineMonitor

/-- Entry of the in-memory API cache, from `CacheEntry<T>` in
`src/main/cache.ts`: the payload, the `Date.now()` timestamp at which it was
stored, the time-to-live in milliseconds, and the optional conditional-request
headers. -/
structure CacheEntry (α : Type) where
  data : α
  timestamp : Nat
  ttl : Nat
  etag : Option String := none
  lastModified : Option String := none
  deriving Repr, DecidableEq

/-- The private `store` of `ApiCache`: a `Map<string, CacheEntry<unknown>>`,
modelled as an association list keyed by cache key. -/
abbrev CacheStore (α : Type) : Type := List (String × CacheEntry α)

/-- Removal of one key from an association list, the model of
`Map.delete(key)` as used by both the cache store and the in-flight map. -/
def mapDelete (l : List (String × β)) (key : String) : List (String × β) :=
  l.filter (fun p => p.1 ≠ key)

/-- Model of `ApiCache.get` (`src/main/cache.ts` lines 21–29): return the
entry's data if present and unexpired; an expired entry is deleted as a side
effect of the lookup and `undefined` (here `none`) is returned.  The returned
store is the store after the lookup's side effect. -/
def cacheGet (store : CacheStore α) (key : String) (now : Nat) :
    Option α × CacheStore α :=
  match store.lookup key with
  | none => (none, store)
  | some entry =>
      if now - entry.timestamp > entry.ttl then
        (none, mapDelete store key)
      else
        (some entry.data, store)

/-- Model of `ApiCache.set` (`src/main/cache.ts` lines 34–36): unconditionally
overwrite the binding for `key` with a fresh entry stamped `now`. -/
def cacheSet (store : CacheStore α) (key : String) (data : α) (ttl : Nat)
    (now : Nat) (etag lastModified : Option String) : CacheStore α :=
  (key, { data := data, timestamp := now, ttl := ttl, etag := etag,
          lastModified := lastModified }) :: mapDelete store key

/-- Model of `ApiCache.getConditionalHeaders` (`src/main/cache.ts` lines
43–47): the headers are returned even for an expired entry. -/
def cacheGetConditionalHeaders (store : CacheStore α) (key : String) :
    Option (Option String × Option String) :=
  (store.lookup key).map (fun e => (e.etag, e.lastModified))

/-- Model of `ApiCache.touch` (`src/main/cache.ts` lines 52–57): if an entry
for `key` exists, refresh its timestamp to `now`; otherwise do nothing. -/
def cacheTouch (store : CacheStore α) (key : String) (now : Nat) :
    CacheStore α :=
  store.map (fun p => if p.1 = key then (p.1, { p.2 with timestamp := now }) else p)

/-- Boolean prefix test on strings, the model of JavaScript
`key.startsWith(p)`: character-by-character comparison of `p` against the
leading characters of `s`. -/
def strStartsWith (s p : String) : Bool := p.data.isPrefixOf s.data

/-- Model of `ApiCache.invalidate` (`src/main/cache.ts` lines 62–73): delete
the exact key if present, otherwise delete every key that starts with the
given string. -/
def cacheInvalidate (store : CacheStore α) (key : String) : CacheStore α :=
  if (store.lookup key).isSome then
    mapDelete store key
  else
    store.filter (fun p => ! strStartsWith p.1 key)

/-- Model of `ApiCache.clear` (`src/main/cache.ts` lines 78–80). -/
def cacheClear (_store : CacheStore α) : CacheStore α := []

/-- TTL constants from `CacheTTL` in `src/main/cache.ts` lines 93–108,
in milliseconds. -/
def CacheTTL.ITEMS : Nat := 30000

/-- Nodes TTL from `CacheTTL`. -/
def CacheTTL.NODES : Nat := 15000

/-- Queue TTL from `CacheTTL`. -/
def CacheTTL.QUEUE : Nat := 10000

/-- Build-history TTL from `CacheTTL`. -/
def CacheTTL.BUILD_HISTORY : Nat := 20000

/-- Single-build TTL from `CacheTTL`. -/
def CacheTTL.BUILD : Nat := 10000

/-- TTL for stages of completed builds from `CacheTTL` (24 hours). -/
def CacheTTL.STAGES_COMPLETED : Nat := 24 * 60 * 60000

/-- TTL for stages of running builds from `CacheTTL`. -/
def CacheTTL.STAGES_RUNNING : Nat := 10000

/-! ### Association-list lemmas used throughout -/

theorem lookup_filter_keys (p : String → Bool) (s : List (String × β)) (m : String) :
    (s.filter (fun q => p q.1)).lookup m =
      if p m then s.lookup m else none := by
  induction s with
  | nil => cases h : p m <;> simp [List.lookup, h]
  | cons a s ih =>
      by_cases hma : a.1 = m
      · subst hma
        cases h : p a.1 <;> simp [List.filter, List.lookup, h, ih]
      · have hbeq : (m == a.1) = false := by
          simp [beq_iff_eq]
          exact fun h => hma h.symm
        cases h : p a.1 <;> simp [List.filter, List.lookup, h, hbeq, ih]

theorem lookup_mapDelete_self (s : List (String × β)) (k : String) :
    (mapDelete s k).lookup k = none := by
  have := lookup_filter_keys (fun x => decide (x ≠ k)) s k
  simp [mapDelete] at this ⊢
  simpa using this

theorem lookup_mapDelete_ne (s : List (String × β)) (k m : String) (h : m ≠ k) :
    (mapDelete s k).lookup m = s.lookup m := by
  have := lookup_filter_keys (fun x => decide (x ≠ k)) s m
  simp [mapDelete] at this ⊢
  simpa [h] using this

theorem lookup_cacheSet_self (s : CacheStore α) (k : String) (v : α)
    (ttl now : Nat) (e l : Option String) :
    (cacheSet s k v ttl now e l).lookup k =
      some { data := v, timestamp := now, ttl := ttl, etag := e, lastModified := l } := by
  simp [cacheSet, List.lookup]

theorem lookup_cacheTouch_self (s : CacheStore α) (k : String) (now : Nat) :
    (cacheTouch s k now).lookup k =
      (s.lookup k).map (fun e => { e with timestamp := now }) := by
  induction s with
  | nil => rfl
  | cons a s ih =>
      show List.lookup k ((if a.1 = k then (a.1, { a.2 with timestamp := now }) else a)
          :: cacheTouch s k now) = _
      by_cases hak : a.1 = k
      · rw [if_pos hak]
        simp [List.lookup, hak, beq_iff_eq]
      · rw [if_neg hak]
        have hbeq : (k == a.1) = false := by
          simp [beq_iff_eq]
          exact fun h => hak h.symm
        simp [List.lookup, hbeq]
        exact ih

theorem cacheTouch_absent (s : CacheStore α) (k : String) (now : Nat)
    (h : s.lookup k = none) : cacheTouch s k now = s := by
  induction s with
  | nil => rfl
  | cons a s ih =>
      obtain ⟨ak, ae⟩ := a
      by_cases hak : ak = k
      · exfalso
        subst hak
        simp only [List.lookup, beq_self_eq_true] at h
        exact Option.noConfusion h
      · have hbeq : (k == ak) = false := by
          simp [beq_iff_eq]
          exact fun h => hak h.symm
        simp only [List.lookup, hbeq] at h
        show (if ak = k then (ak, { ae with timestamp := now }) else (ak, ae))
            :: cacheTouch s k now = (ak, ae) :: s
        rw [if_neg hak, ih h]

/-! ### Claim C2 — cache TTL boundary -/

/-- Claim C2, counterexample.  The claim states that the first `get` at
elapsed time greater than **or equal to** the TTL returns absent.  In the code
an entry expires only when `now - timestamp > ttl` (strictly), so a read at
elapsed time exactly equal to the TTL still returns the stored value: storing
value `7` with TTL `100` at time `0` and reading at time `100` (elapsed `= T`,
hence `≥ T`) yields `some 7`, not absent. -/
theorem C2_cache_ttl_counterexample :
    (cacheGet (cacheSet ([] : CacheStore Nat) "k" 7 100 0 none none) "k" 100).1
        = some 7
      ∧ 100 - 0 ≥ 100 := by
  constructor
  · rfl
  · decide

/-- Claim C2 (amended): for every key stored with `set(k, v, T)` at time `t0`,
every `get(k)` at elapsed time at most `T` returns `v` and leaves the store
unchanged, and the first `get(k)` at elapsed time **strictly greater** than
`T` returns absent and deletes the entry from the store as a side effect of
that lookup. -/
theorem C2_cache_ttl (store : CacheStore α) (k : String) (v : α)
    (T t0 : Nat) (e l : Option String) :
    (∀ t, t - t0 ≤ T →
        cacheGet (cacheSet store k v T t0 e l) k t
          = (some v, cacheSet store k v T t0 e l))
  ∧ (∀ t, t - t0 > T →
        (cacheGet (cacheSet store k v T t0 e l) k t).1 = none
      ∧ ((cacheGet (cacheSet store k v T t0 e l) k t).2.lookup k = none)) := by
  constructor
  · intro t ht
    have hc : ¬ (t - t0 > T) := by omega
    simp [cacheGet, lookup_cacheSet_self, hc]
  · intro t ht
    simp [cacheGet, lookup_cacheSet_self, ht, lookup_mapDelete_self]

/-- Claim C2 witness: concrete instance of `C2_cache_ttl` with TTL `100`,
store time `0`, a fresh read at time `50` and an expired read at time
`101`. -/
theorem C2_cache_ttl_witness :
    (cacheGet (cacheSet ([] : CacheStore Nat) "k" 7 100 0 none none) "k" 50
        = (some 7, cacheSet ([] : CacheStore Nat) "k" 7 100 0 none none))
  ∧ ((cacheGet (cacheSet ([] : CacheStore Nat) "k" 7 100 0 none none) "k" 101).1
        = none
    ∧ (cacheGet (cacheSet ([] : CacheStore Nat) "k" 7 100 0 none none) "k"
          101).2.lookup "k" = none) :=
  ⟨(C2_cache_ttl [] "k" 7 100 0 none none).1 50 (by decide),
   (C2_cache_ttl [] "k" 7 100 0 none none).2 101 (by decide)⟩

/-! ### Claim C7 — exact-then-prefix invalidation -/

/-- Claim C7: `invalidate(s)` deletes exactly the entry whose key equals `s`
when such an entry is present (all other keys, including those starting with
`s`, are unaffected), and otherwise deletes exactly the entries whose keys
start with `s`; the prefix pass is a fallback and never runs in addition to
the exact-match deletion. -/
theorem C7_invalidate (s : CacheStore α) (k m : String) :
    ((s.lookup k).isSome →
        (cacheInvalidate s k).lookup m = if m = k then none else s.lookup m)
  ∧ (s.lookup k = none →
        (cacheInvalidate s k).lookup m
          = if strStartsWith m k then none else s.lookup m) := by
  constructor
  · intro h
    unfold cacheInvalidate
    rw [if_pos h]
    by_cases hmk : m = k
    · subst hmk
      simp [lookup_mapDelete_self]
    · rw [lookup_mapDelete_ne _ _ _ hmk, if_neg hmk]
  · intro h
    unfold cacheInvalidate
    rw [if_neg (by simp [h])]
    have hf := lookup_filter_keys (fun x => ! strStartsWith x k) s m
    rw [hf]
    by_cases hm : strStartsWith m k = true
    · simp [hm]
    · simp [hm]

/-- Claim C7 witness: with the store holding keys `queue:all` and
`builds:jobA:20`, an exact-match invalidation of `queue:all` leaves
`builds:jobA:20` untouched, while a prefix invalidation of `builds:jobA`
(no exact entry) removes `builds:jobA:20`. -/
theorem C7_invalidate_witness :
    (cacheInvalidate
        [("queue:all", ({ data := 1, timestamp := 0, ttl := 10 } : CacheEntry Nat)),
         ("builds:jobA:20", { data := 2, timestamp := 0, ttl := 10 })]
        "queue:all").lookup "builds:jobA:20"
      = some { data := 2, timestamp := 0, ttl := 10 }
  ∧ (cacheInvalidate
        [("queue:all", ({ data := 1, timestamp := 0, ttl := 10 } : CacheEntry Nat)),
         ("builds:jobA:20", { data := 2, timestamp := 0, ttl := 10 })]
        "builds:jobA").lookup "builds:jobA:20"
      = none := by
  constructor
  · have h := (C7_invalidate
        [("queue:all", ({ data := 1, timestamp := 0, ttl := 10 } : CacheEntry Nat)),
         ("builds:jobA:20", { data := 2, timestamp := 0, ttl := 10 })]
        "queue:all" "builds:jobA:20").1 (by decide)
    rw [h]
    decide
  · have h := (C7_invalidate
        [("queue:all", ({ data := 1, timestamp := 0, ttl := 10 } : CacheEntry Nat)),
         ("builds:jobA:20", { data := 2, timestamp := 0, ttl := 10 })]
        "builds:jobA" "builds:jobA:20").2 (by decide)
    rw [h]
    decide

/-! ### Claim C10 — touch revives entries, including expired ones -/

/-- Claim C10: for every key whose entry is still present in the store —
including one whose TTL has already elapsed, since nothing but a `get`
lookup (or an explicit invalidation) ever removes an entry — `touch(key)`
resets the stored timestamp to the current time, so a subsequent `get(key)`
within a fresh full TTL window returns the originally stored value; `touch`
on an absent key leaves the store unchanged.  The presence hypothesis places
no freshness condition on the entry, which is exactly the claim's "an expired
entry can be revived by touch before any get observes it". -/
theorem C10_touch_revives (s : CacheStore α) (k : String) (now t' : Nat) :
    (∀ e, s.lookup k = some e → t' - now ≤ e.ttl →
        (cacheGet (cacheTouch s k now) k t').1 = some e.data)
  ∧ (s.lookup k = none → cacheTouch s k now = s) := by
  constructor
  · intro e he hle
    have hl : (cacheTouch s k now).lookup k = some { e with timestamp := now } := by
      rw [lookup_cacheTouch_self, he]
      rfl
    have hc : ¬ (t' - now > e.ttl) := by omega
    simp [cacheGet, hl, hc]
  · exact cacheTouch_absent s k now

/-- Claim C10 witness: an entry stored at time `0` with TTL `100` has long
expired by time `500`, yet `touch` at `500` revives it and a `get` at `550`
returns the original value; `touch` of a key absent from the empty store is a
no-op. -/
theorem C10_touch_revives_witness :
    (cacheGet (cacheTouch
        [("k", ({ data := 7, timestamp := 0, ttl := 100 } : CacheEntry Nat))]
        "k" 500) "k" 550).1 = some 7
  ∧ cacheTouch ([] : CacheStore Nat) "k" 500 = [] :=
  ⟨(C10_touch_revives
      [("k", ({ data := 7, timestamp := 0, ttl := 100 } : CacheEntry Nat))]
      "k" 500 550).1 { data := 7, timestamp := 0, ttl := 100 }
      (by decide) (by decide),
   (C10_touch_revives ([] : CacheStore Nat) "k" 500 550).2 (by decide)⟩

/-! ### Stage-list caching (`jenkins:get-stages` handler, `ipc-handlers.ts`) -/

/-- Pipeline stage record, from `interface JenkinsStage` in
`jenkins-api.ts`. -/
structure JenkinsStage where
  id : String
  name : String
  status : String
  startTimeMillis : Nat
  durationMillis : Nat
  pauseDurationMillis : Nat
  deriving Repr, DecidableEq

/-- The `isCompleted` test of the `jenkins:get-stages` handler
(`src/main/ipc-handlers.ts` lines 162–163): a non-empty stage list in which
every stage's status is neither `IN_PROGRESS` nor `PAUSED_PENDING_INPUT`. -/
def stagesCompleted (stages : List JenkinsStage) : Bool :=
  decide (stages.length > 0) &&
    stages.all (fun s => s.status != "IN_PROGRESS" && s.status != "PAUSED_PENDING_INPUT")

/-- Model of the `jenkins:get-stages` IPC handler (`src/main/ipc-handlers.ts`
lines 149–168).  `fetched` is the stage list the remote call
`getApi().getStages(...)` resolved with; the handler consults the cache first
and on a miss stores `fetched` under the long TTL when the build is complete,
the short TTL otherwise.  Returns the stage list handed to the caller and the
cache store after the handler ran. -/
def getStagesHandler (store : CacheStore (List JenkinsStage)) (cacheKey : String)
    (now : Nat) (fetched : List JenkinsStage) :
    List JenkinsStage × CacheStore (List JenkinsStage) :=
  match cacheGet store cacheKey now with
  | (some cached, store2) => (cached, store2)
  | (none, store2) =>
      let ttl := if stagesCompleted fetched then CacheTTL.STAGES_COMPLETED
                 else CacheTTL.STAGES_RUNNING
      (fetched, cacheSet store2 cacheKey fetched ttl now none none)

theorem stagesCompleted_iff (fetched : List JenkinsStage) :
    stagesCompleted fetched = true ↔
      fetched ≠ [] ∧ ∀ s ∈ fetched,
        s.status ≠ "IN_PROGRESS" ∧ s.status ≠ "PAUSED_PENDING_INPUT" := by
  simp [stagesCompleted, List.all_eq_true, List.length_pos, bne_iff_ne]

/-! ### Claim C8 — stage TTL branch -/

/-- Claim C8, counterexample.  The claim states that a fetch whose result has
every stage in a terminal status is stored with the long-lived TTL.  An empty
stage list satisfies "every stage is terminal" vacuously, yet the handler
requires `stages.length > 0` for the long TTL, so an empty result is stored
with the short `STAGES_RUNNING` TTL instead of `STAGES_COMPLETED`. -/
theorem C8_stage_ttl_counterexample :
    (∀ s ∈ ([] : List JenkinsStage),
        s.status ≠ "IN_PROGRESS" ∧ s.status ≠ "PAUSED_PENDING_INPUT")
  ∧ ((getStagesHandler [] "stages:job:1" 0 []).2.lookup "stages:job:1").map
        CacheEntry.ttl = some CacheTTL.STAGES_RUNNING
  ∧ CacheTTL.STAGES_RUNNING ≠ CacheTTL.STAGES_COMPLETED := by
  refine ⟨by simp, by rfl, by decide⟩

/-- Claim C8 (amended): on a cache miss, a stage-list fetch whose result is
**non-empty** with every stage in a terminal status (neither `IN_PROGRESS`
nor `PAUSED_PENDING_INPUT`) is stored in the cache with the long-lived TTL,
and a fetch whose result is empty or contains an in-progress or
paused-for-input stage is stored with the short TTL. -/
theorem C8_stage_ttl (store : CacheStore (List JenkinsStage)) (key : String)
    (now : Nat) (fetched : List JenkinsStage)
    (hmiss : (cacheGet store key now).1 = none) :
    ∃ e, (getStagesHandler store key now fetched).2.lookup key = some e
      ∧ e.data = fetched
      ∧ (e.ttl = CacheTTL.STAGES_COMPLETED ∨ e.ttl = CacheTTL.STAGES_RUNNING)
      ∧ (e.ttl = CacheTTL.STAGES_COMPLETED ↔
          fetched ≠ [] ∧ ∀ s ∈ fetched,
            s.status ≠ "IN_PROGRESS" ∧ s.status ≠ "PAUSED_PENDING_INPUT") := by
  have hpair : cacheGet store key now = (none, (cacheGet store key now).2) := by
    rw [← hmiss]
  unfold getStagesHandler
  rw [hpair]
  refine ⟨_, lookup_cacheSet_self _ _ _ _ _ _ _, rfl, ?_, ?_⟩
  · by_cases hsc : stagesCompleted fetched = true
    · simp [hsc]
    · simp [hsc]
  · rw [← stagesCompleted_iff]
    by_cases hsc : stagesCompleted fetched = true
    · simp [hsc]
    · simp only [Bool.not_eq_true] at hsc
      simp [hsc]
      decide

/-- Claim C8 witness: a singleton `SUCCESS` stage list is stored with the
24-hour TTL, discharging the cache-miss hypothesis on the empty store. -/
theorem C8_stage_ttl_witness :
    ∃ e, (getStagesHandler []
          "stages:job:2" 0
          [{ id := "6", name := "Build", status := "SUCCESS",
             startTimeMillis := 0, durationMillis := 5,
             pauseDurationMillis := 0 }]).2.lookup "stages:job:2" = some e
      ∧ e.data = [{ id := "6", name := "Build", status := "SUCCESS",
                    startTimeMillis := 0, durationMillis := 5,
                    pauseDurationMillis := 0 }]
      ∧ (e.ttl = CacheTTL.STAGES_COMPLETED ∨ e.ttl = CacheTTL.STAGES_RUNNING)
      ∧ (e.ttl = CacheTTL.STAGES_COMPLETED ↔
          [({ id := "6", name := "Build", status := "SUCCESS",
              startTimeMillis := 0, durationMillis := 5,
              pauseDurationMillis := 0 } : JenkinsStage)] ≠ [] ∧
          ∀ s ∈ [({ id := "6", name := "Build", status := "SUCCESS",
                    startTimeMillis := 0, durationMillis := 5,
                    pauseDurationMillis := 0 } : JenkinsStage)],
            s.status ≠ "IN_PROGRESS" ∧ s.status ≠ "PAUSED_PENDING_INPUT") :=
  C8_stage_ttl []
    "stages:job:2" 0
    [{ id := "6", name := "Build", status := "SUCCESS",
       startTimeMillis := 0, durationMillis := 5, pauseDurationMillis := 0 }]
    (by rfl)

/-! ### Request coordinator: `cachedFetch` (`src/main/ipc-handlers.ts` 52–77)

`cachedFetch` runs synchronously from its entry to the `return promise`
statement: the cache probe, the in-flight probe, the invocation of the
fetcher and the registration of the new promise all happen inside one
event-loop turn, with no suspension point in between.  A call is therefore
modelled as one atomic step (`callStep`).  The `.then`/`.finally`
continuation attached to the fetcher's promise runs when the fetch settles
and is modelled as a second atomic step (`settleStep`).  Promises are
identified by the `Nat` drawn from `nextId` when the fetcher is invoked;
`outstanding` is instrumentation listing every fetcher invocation whose
promise has not yet settled, so "at most one outstanding fetch per key"
is a statement about `outstanding`. -/

/-- What one `cachedFetch` call returns: a cached value (step 1 of the
algorithm), the existing in-flight promise (step 2), or a freshly started
fetch's promise (step 3). -/
inductive CallResult (α : Type) where
  | hit (v : α)
  | joined (fid : Nat)
  | started (fid : Nat)
  deriving Repr, DecidableEq

/-- State shared by all `cachedFetch` calls: the `apiCache` singleton and the
module-level `inFlight` map, plus the promise-identifier supply and the
outstanding-fetch instrumentation. -/
structure CoordState (α : Type) where
  cache : CacheStore α
  inFlight : List (String × Nat)
  outstanding : List (String × Nat)
  nextId : Nat
  deriving Repr

/-- Model of the synchronous body of `cachedFetch`
(`src/main/ipc-handlers.ts` lines 57–76): probe the cache (with its lazy
eviction side effect), probe the in-flight map, and otherwise invoke the
fetcher, allocating a fresh promise id and registering it in the in-flight
map before control returns to the event loop. -/
def callStep (s : CoordState α) (key : String) (now : Nat) :
    CoordState α × CallResult α :=
  match cacheGet s.cache key now with
  | (some v, cache2) => ({ s with cache := cache2 }, .hit v)
  | (none, cache2) =>
      match s.inFlight.lookup key with
      | some fid => ({ s with cache := cache2 }, .joined fid)
      | none =>
          ({ cache := cache2,
             inFlight := (key, s.nextId) :: s.inFlight,
             outstanding := (key, s.nextId) :: s.outstanding,
             nextId := s.nextId + 1 }, .started s.nextId)

/-- Model of the `.then(...).finally(...)` continuation of the fetch promise
`fid` for `key` (`src/main/ipc-handlers.ts` lines 66–73), with the `ttl`
captured at call time: a fulfilled fetch stores its value in the cache and is
passed through; a rejected fetch stores nothing and the rejection is passed
through; in both cases the in-flight entry for `key` is deleted and the fetch
stops being outstanding.  The returned `Except` is the settled state of the
promise every caller holding it observes. -/
def settleStep (s : CoordState α) (key : String) (fid ttl now : Nat)
    (r : Except ε α) : CoordState α × Except ε α :=
  match r with
  | .ok v =>
      ({ s with cache := cacheSet s.cache key v ttl now none none,
                inFlight := mapDelete s.inFlight key,
                outstanding := s.outstanding.filter (fun p => p ≠ (key, fid)) },
       .ok v)
  | .error e =>
      ({ s with inFlight := mapDelete s.inFlight key,
                outstanding := s.outstanding.filter (fun p => p ≠ (key, fid)) },
       .error e)

/-- An event of the coordinator's event loop: a `cachedFetch` call arriving,
or a started fetch settling. -/
inductive CoordEvent (α ε : Type) where
  | call (key : String) (now : Nat)
  | settle (key : String) (fid ttl now : Nat) (r : Except ε α)

/-- One event-loop step.  A settle event fires the continuation of the
registered in-flight promise; a settle for a promise that is not the one
registered for its key corresponds to no real execution and leaves the state
unchanged. -/
def coordStep (s : CoordState α) : CoordEvent α ε → CoordState α
  | .call k now => (callStep s k now).1
  | .settle k fid ttl now r =>
      if s.inFlight.lookup k = some fid then (settleStep s k fid ttl now r).1
      else s

/-- Folding a list of events through the coordinator. -/
def runEvents (s : CoordState α) : List (CoordEvent α ε) → CoordState α
  | [] => s
  | ev :: evs => runEvents (coordStep s ev) evs

/-- Number of outstanding fetches for a given key. -/
def countKey (l : List (String × Nat)) (k : String) : Nat :=
  l.countP (fun p => p.1 == k)

/-- Coordinator invariant: every key has at most one outstanding fetch, a key
absent from the in-flight map has none, and each outstanding fetch is exactly
the promise registered in the in-flight map for its key. -/
def CoordInv (s : CoordState α) : Prop :=
  ∀ k, countKey s.outstanding k ≤ 1
    ∧ (s.inFlight.lookup k = none → countKey s.outstanding k = 0)
    ∧ (∀ f, (k, f) ∈ s.outstanding → s.inFlight.lookup k = some f)

/-- N repeated `cachedFetch` calls for the same key within one window (no
settle in between). -/
def runCalls (s : CoordState α) (key : String) (now : Nat) :
    Nat → CoordState α × List (CallResult α)
  | 0 => (s, [])
  | n + 1 =>
      let step := callStep s key now
      let rest := runCalls step.1 key now n
      (rest.1, step.2 :: rest.2)

theorem cacheGet_miss_lookup (store : CacheStore α) (key : String) (now : Nat)
    (h : (cacheGet store key now).1 = none) :
    ((cacheGet store key now).2).lookup key = none := by
  unfold cacheGet
  cases hl : store.lookup key with
  | none => exact hl
  | some e =>
      by_cases hexp : now - e.timestamp > e.ttl
      · simp only [hexp, if_true]
        exact lookup_mapDelete_self store key
      · exfalso
        unfold cacheGet at h
        rw [hl] at h
        simp [hexp] at h

theorem lookup_cons_self (l : List (String × β)) (k : String) (v : β) :
    (((k, v) :: l).lookup k) = some v := by
  simp [List.lookup]

theorem lookup_cons_ne (l : List (String × β)) (k m : String) (v : β)
    (h : m ≠ k) : (((k, v) :: l).lookup m) = l.lookup m := by
  have hbeq : (m == k) = false := by simp [beq_iff_eq, h]
  simp [List.lookup, hbeq]

theorem runCalls_joined (s : CoordState α) (key : String) (now : Nat)
    (fid : Nat) (m : Nat)
    (hc : s.cache.lookup key = none)
    (hf : s.inFlight.lookup key = some fid) :
    runCalls s key now m = (s, List.replicate m (.joined fid)) := by
  induction m with
  | zero => rfl
  | succ m ih =>
      have hstep : callStep s key now = (s, .joined fid) := by
        unfold callStep cacheGet
        rw [hc, hf]
      unfold runCalls
      rw [hstep]
      show ((runCalls s key now m).1,
        CallResult.joined fid :: (runCalls s key now m).2) = _
      rw [ih]
      rfl

/-- Invariant facts about the in-flight map and outstanding list after a
registered fetch settles. -/
theorem settle_lists_inv (s : CoordState α) (key : String) (fid : Nat)
    (hg : s.inFlight.lookup key = some fid) (hinv : CoordInv s) (k : String) :
    countKey (s.outstanding.filter (fun p => p ≠ (key, fid))) k ≤ 1
  ∧ ((mapDelete s.inFlight key).lookup k = none →
      countKey (s.outstanding.filter (fun p => p ≠ (key, fid))) k = 0)
  ∧ (∀ f, (k, f) ∈ s.outstanding.filter (fun p => p ≠ (key, fid)) →
      (mapDelete s.inFlight key).lookup k = some f) := by
  have hout : ∀ p ∈ s.outstanding.filter (fun p => p ≠ (key, fid)),
      p.1 ≠ key := by
    intro p hp
    obtain ⟨hmem, hne⟩ := List.mem_filter.mp hp
    simp only [decide_eq_true_eq] at hne
    obtain ⟨pk, pf⟩ := p
    intro hk
    simp only at hk
    subst hk
    have hpf : s.inFlight.lookup pk = some pf := (hinv pk).2.2 pf hmem
    have heq : pf = fid := Option.some.inj (hpf.symm.trans hg)
    exact hne (by rw [heq])
  obtain ⟨h1, h2, h3⟩ := hinv k
  refine ⟨?_, ?_, ?_⟩
  · exact le_trans ((List.filter_sublist _).countP_le _) h1
  · intro hlk
    by_cases hk : k = key
    · subst hk
      unfold countKey
      rw [List.countP_eq_zero]
      intro p hp
      have := hout p hp
      simpa [beq_iff_eq] using this
    · rw [lookup_mapDelete_ne _ _ _ hk] at hlk
      have h0 := h2 hlk
      unfold countKey at h0 ⊢
      have hsub : (s.outstanding.filter (fun p => p ≠ (key, fid))).countP
            (fun p => p.1 == k) ≤ s.outstanding.countP (fun p => p.1 == k) :=
        (List.filter_sublist s.outstanding).countP_le _
      omega
  · intro f hmem
    have hne := hout _ hmem
    have hmem' := (List.mem_filter.mp hmem).1
    rw [lookup_mapDelete_ne _ _ _ (by simpa using hne)]
    exact h3 f hmem'

/-- Preservation of the coordinator invariant by one event-loop step. -/
theorem coordStep_inv (s : CoordState α) (ev : CoordEvent α ε)
    (hinv : CoordInv s) : CoordInv (coordStep s ev) := by
  cases ev with
  | call key now =>
      show CoordInv (callStep s key now).1
      unfold callStep
      cases hget : cacheGet s.cache key now with
      | mk o cache2 =>
          cases o with
          | some v => exact fun k => hinv k
          | none =>
              cases hf : s.inFlight.lookup key with
              | some fid => exact fun k => hinv k
              | none =>
                  intro k
                  obtain ⟨h1, h2, h3⟩ := hinv k
                  by_cases hk : k = key
                  · subst hk
                    have hz : countKey s.outstanding k = 0 := h2 hf
                    refine ⟨?_, ?_, ?_⟩
                    · show countKey ((k, s.nextId) :: s.outstanding) k ≤ 1
                      unfold countKey at hz ⊢
                      rw [List.countP_cons]
                      simp [hz]
                    · intro habs
                      rw [lookup_cons_self] at habs
                      exact Option.noConfusion habs
                    · intro f hmem
                      rw [lookup_cons_self]
                      rcases List.mem_cons.mp hmem with heq | hmem'
                      · rw [(Prod.mk.injEq _ _ _ _).mp heq |>.2]
                      · exfalso
                        have := h3 f hmem'
                        rw [hf] at this
                        exact Option.noConfusion this
                  · have hbk : (((key, s.nextId) : String × Nat).1 == k) = false := by
                      simp [beq_iff_eq]
                      exact fun h => hk h.symm
                    refine ⟨?_, ?_, ?_⟩
                    · show countKey ((key, s.nextId) :: s.outstanding) k ≤ 1
                      unfold countKey at h1 ⊢
                      rw [List.countP_cons]
                      simpa [hbk] using h1
                    · intro hlk
                      rw [lookup_cons_ne _ _ _ _ hk] at hlk
                      have h0 := h2 hlk
                      unfold countKey at h0 ⊢
                      rw [List.countP_cons]
                      simpa [hbk] using h0
                    · intro f hmem
                      rw [lookup_cons_ne _ _ _ _ hk]
                      rcases List.mem_cons.mp hmem with heq | hmem'
                      · exfalso
                        exact hk ((Prod.mk.injEq _ _ _ _).mp heq |>.1)
                      · exact h3 f hmem'
  | settle key fid ttl now r =>
      show CoordInv (if s.inFlight.lookup key = some fid
          then (settleStep s key fid ttl now r).1 else s)
      by_cases hg : s.inFlight.lookup key = some fid
      · rw [if_pos hg]
        cases r with
        | ok v => exact fun k => settle_lists_inv s key fid hg hinv k
        | error e => exact fun k => settle_lists_inv s key fid hg hinv k
      · rw [if_neg hg]
        exact hinv

theorem runEvents_inv (s : CoordState α) (evs : List (CoordEvent α ε))
    (hinv : CoordInv s) : CoordInv (runEvents s evs) := by
  induction evs generalizing s with
  | nil => exact hinv
  | cons ev evs ih => exact ih _ (coordStep_inv s ev hinv)

theorem callStep_miss (s : CoordState α) (key : String) (now : Nat)
    (hcache : (cacheGet s.cache key now).1 = none)
    (hinfl : s.inFlight.lookup key = none) :
    callStep s key now =
      ({ cache := (cacheGet s.cache key now).2,
         inFlight := (key, s.nextId) :: s.inFlight,
         outstanding := (key, s.nextId) :: s.outstanding,
         nextId := s.nextId + 1 }, .started s.nextId) := by
  unfold callStep
  cases hget : cacheGet s.cache key now with
  | mk o c2 =>
      rw [hget] at hcache
      have ho : o = none := hcache
      subst ho
      rw [hinfl]

/-! ### Claim C1 — concurrent-call deduplication and single-flight -/

/-- Claim C1: if `n ≥ 1` `cachedFetch` calls for the same key arrive while
the cache holds no unexpired entry for that key and no fetch for it is in
flight, and no fetch settles in between (the calls are concurrent with the
first call's fetch), then the fetcher is invoked exactly once — exactly one
promise id is allocated and exactly one fetch joins the outstanding list —
the first caller receives the newly started promise and every other caller
receives (joins) that same promise, so all callers observe the same eventual
resolution or rejection of that single fetch.  Moreover, along every event
trace from a state satisfying the coordinator invariant, every key has at
most one outstanding fetch at every instant. -/
theorem C1_dedup_single_flight (s s₀ : CoordState α) (key : String)
    (now n : Nat) (evs : List (CoordEvent α ε))
    (hcache : (cacheGet s.cache key now).1 = none)
    (hinfl : s.inFlight.lookup key = none)
    (hn : 1 ≤ n) (hinv : CoordInv s₀) :
    (runCalls s key now n).2
        = CallResult.started s.nextId
            :: List.replicate (n - 1) (CallResult.joined s.nextId)
  ∧ (runCalls s key now n).1.nextId = s.nextId + 1
  ∧ (runCalls s key now n).1.outstanding = (key, s.nextId) :: s.outstanding
  ∧ (∀ k, countKey (runEvents s₀ evs).outstanding k ≤ 1) := by
  obtain ⟨m, rfl⟩ : ∃ m, n = m + 1 := ⟨n - 1, by omega⟩
  have hc1 : ((cacheGet s.cache key now).2).lookup key = none :=
    cacheGet_miss_lookup s.cache key now hcache
  have hrun : runCalls s key now (m + 1)
      = ({ cache := (cacheGet s.cache key now).2,
           inFlight := (key, s.nextId) :: s.inFlight,
           outstanding := (key, s.nextId) :: s.outstanding,
           nextId := s.nextId + 1 },
         CallResult.started s.nextId
           :: List.replicate m (CallResult.joined s.nextId)) := by
    have hsucc : runCalls s key now (m + 1)
        = ((runCalls (callStep s key now).1 key now m).1,
           (callStep s key now).2
             :: (runCalls (callStep s key now).1 key now m).2) := rfl
    rw [hsucc, callStep_miss s key now hcache hinfl]
    dsimp only
    rw [runCalls_joined
      { cache := (cacheGet s.cache key now).2,
        inFlight := (key, s.nextId) :: s.inFlight,
        outstanding := (key, s.nextId) :: s.outstanding,
        nextId := s.nextId + 1 } key now s.nextId m hc1
      (lookup_cons_self _ _ _)]
  refine ⟨?_, ?_, ?_, fun k => (runEvents_inv s₀ evs hinv k).1⟩
  · rw [hrun]
    rfl
  · rw [hrun]
  · rw [hrun]

/-- Claim C1 witness: three calls for `items:all` against the pristine
coordinator state produce one started fetch (promise `0`) and two joins of
that same promise, one outstanding entry results, and after a concrete
call–settle–call trace from the pristine state every key has at most one
outstanding fetch. -/
theorem C1_dedup_single_flight_witness :
    (runCalls (⟨[], [], [], 0⟩ : CoordState Nat) "items:all" 0 3).2
        = [CallResult.started 0, CallResult.joined 0, CallResult.joined 0]
  ∧ (runCalls (⟨[], [], [], 0⟩ : CoordState Nat) "items:all" 0 3).1.outstanding
        = [("items:all", 0)]
  ∧ (∀ k, countKey (runEvents (ε := String)
        (⟨[], [], [], 0⟩ : CoordState Nat)
        [CoordEvent.call "items:all" 0,
         CoordEvent.settle "items:all" 0 30000 5 (Except.ok 42),
         CoordEvent.call "items:all" 6]).outstanding k ≤ 1) := by
  have hinv0 : CoordInv (⟨[], [], [], 0⟩ : CoordState Nat) := by
    intro k
    refine ⟨by simp [countKey], fun _ => by simp [countKey], fun f hf => ?_⟩
    simp at hf
  have h := C1_dedup_single_flight (ε := String)
      (⟨[], [], [], 0⟩ : CoordState Nat) (⟨[], [], [], 0⟩ : CoordState Nat)
      "items:all" 0 3
      [CoordEvent.call "items:all" 0,
       CoordEvent.settle "items:all" 0 30000 5 (Except.ok 42),
       CoordEvent.call "items:all" 6]
      rfl rfl (by decide) hinv0
  exact ⟨h.1, h.2.2.1, h.2.2.2⟩

/-! ### Claim C6 — rejected fetches clean up and do not block retries -/

/-- Claim C6: when the fetch promise for a key settles with a rejection, the
continuation passes that same error through to every caller of `cachedFetch`
holding the shared promise, stores nothing in the cache (the cache is exactly
what it was before), and still deletes the in-flight entry for the key; hence
a subsequent `cachedFetch` for the same key — still a cache miss, since the
failed call cached nothing — invokes the fetcher again instead of being
permanently blocked. -/
theorem C6_rejection (s : CoordState α) (key : String) (fid ttl now now' : Nat)
    (e : ε) (hmiss : (cacheGet s.cache key now').1 = none) :
    (settleStep s key fid ttl now (Except.error e)).2 = Except.error e
  ∧ (settleStep s key fid ttl now (Except.error e)).1.cache = s.cache
  ∧ (settleStep s key fid ttl now (Except.error e)).1.inFlight.lookup key = none
  ∧ (callStep (settleStep s key fid ttl now (Except.error e)).1 key now').2
      = CallResult.started s.nextId := by
  refine ⟨rfl, rfl, lookup_mapDelete_self _ _, ?_⟩
  rw [callStep_miss (settleStep s key fid ttl now (Except.error e)).1 key now'
    hmiss (lookup_mapDelete_self _ _)]
  rfl

/-- Claim C6 witness: a single in-flight fetch for `items:all` settles with
rejection `boom`; the error is surfaced, the cache stays empty, the in-flight
entry is gone, and a retry call starts a fresh fetch (promise `1`). -/
theorem C6_rejection_witness :
    (settleStep (⟨[], [("items:all", 0)], [("items:all", 0)], 1⟩ : CoordState Nat)
        "items:all" 0 30000 5 (Except.error "boom")).2 = Except.error "boom"
  ∧ (settleStep (⟨[], [("items:all", 0)], [("items:all", 0)], 1⟩ : CoordState Nat)
        "items:all" 0 30000 5 (Except.error "boom")).1.cache = []
  ∧ (settleStep (⟨[], [("items:all", 0)], [("items:all", 0)], 1⟩ : CoordState Nat)
        "items:all" 0 30000 5 (Except.error "boom")).1.inFlight.lookup "items:all"
      = none
  ∧ (callStep (settleStep
        (⟨[], [("items:all", 0)], [("items:all", 0)], 1⟩ : CoordState Nat)
        "items:all" 0 30000 5 (Except.error "boom")).1 "items:all" 6).2
      = CallResult.started 1 :=
  C6_rejection (⟨[], [("items:all", 0)], [("items:all", 0)], 1⟩ : CoordState Nat)
    "items:all" 0 30000 5 6 "boom" (by rfl)

/-! ### Build-state change detector / notifier (`notifier.ts`)

The notifier's `checkForChanges` runs on a timer; each cycle fetches the job
inventory, pushes the recomputed global status to every registered
`onBuildStateChange` callback, diffs each job against `previousStates`, and
then scans running jobs for pending inputs.  `showNotification` additionally
consults the user's `showNotifications` setting before displaying anything;
throughout, "emitting a notification" means the detector invoking
`showNotification`, the detector-level decision the claims are about. -/

/-- Inventory item as the notifier consumes it (`JenkinsItem` of
`jenkins-api.ts`, restricted to the fields the notifier reads): the job's
fullname, its color code — `none` models a missing/unset color, which
JavaScript sees as a falsy `undefined` — and the number of `lastBuild` when
present. -/
structure JenkinsItem where
  fullname : String
  color : Option String
  lastBuild : Option Nat
  deriving Repr, DecidableEq

/-- Per-job memory of the detector, `interface BuildState` in `notifier.ts`:
the color recorded at the previous cycle and the last-build number (`null`
when the job had none). -/
structure BuildState where
  color : String
  lastBuildNumber : Option Nat
  deriving Repr, DecidableEq

/-- Model of JavaScript `s.endsWith(p)`. -/
def strEndsWith (s p : String) : Bool := p.data.isSuffixOf s.data

/-- Removal of the first occurrence of `pat` from a character list; helper
for `replaceFirst`. -/
def removeFirstOcc (pat : List Char) : List Char → List Char
  | [] => []
  | c :: rest =>
      if pat.isPrefixOf (c :: rest) then (c :: rest).drop pat.length
      else c :: removeFirstOcc pat rest

/-- Model of JavaScript `s.replace(pat, "")` with a string pattern: only the
first occurrence is removed (`String.prototype.replace` with a string search
value replaces a single occurrence). -/
def replaceFirst (s pat : String) : String :=
  String.mk (removeFirstOcc pat.data s.data)

/-- Model of `item.color || 'notbuilt'` (`notifier.ts`): a missing or empty
color string is falsy in JavaScript and falls back to `notbuilt`. -/
def normColor (c : Option String) : String :=
  match c with
  | none => "notbuilt"
  | some s => if s = "" then "notbuilt" else s

/-- Model of `buildResultLabel` (`notifier.ts` lines 209–225): running colors
(`_anime` suffix) yield no label; otherwise the base color (first `_anime`
occurrence stripped, as `color.replace('_anime', '')` does) is mapped to a
result label, unmappable bases yielding none. -/
def buildResultLabel (color : String) : Option String :=
  let base := replaceFirst color "_anime"
  if strEndsWith color "_anime" then none
  else if base = "red" then some "FAILED"
  else if base = "yellow" then some "UNSTABLE"
  else if base = "aborted" then some "ABORTED"
  else if base = "blue" then some "SUCCESS"
  else if base = "green" then some "SUCCESS"
  else none

/-- Model of the per-job body of `checkForChanges` (`notifier.ts` lines
268–307): on first observation record state and emit nothing; afterwards
emit `buildResultLabel` of the current color exactly when
`(wasRunning && isNowDone) || (buildChanged && isNowDone)` holds, where
`buildChanged` is `currentBuildNum !== null && currentBuildNum !==
prev.lastBuildNumber`.  Returns the notification label (if any) and the
state recorded for the next cycle. -/
def processItem (prev : Option BuildState) (item : JenkinsItem) :
    Option String × BuildState :=
  match prev with
  | none => (none, { color := normColor item.color, lastBuildNumber := item.lastBuild })
  | some prevS =>
      (if (strEndsWith prevS.color "_anime"
            && ! strEndsWith (normColor item.color) "_anime")
          || ((item.lastBuild.isSome && item.lastBuild != prevS.lastBuildNumber)
            && ! strEndsWith (normColor item.color) "_anime") then
        buildResultLabel (normColor item.color)
      else none,
      { color := normColor item.color, lastBuildNumber := item.lastBuild })

/-- Model of `computeGlobalStatus` (`notifier.ts` lines 233–253): priority
reduction over the inventory — failed > running > unstable > success >
neutral.  The flag scans mirror the loop's per-item checks: `hasFailed`
is "some base color is red", `hasRunning` is "some color carries the
`_anime` suffix", and so on. -/
def computeGlobalStatus (items : List JenkinsItem) : String :=
  if items.any (fun i => replaceFirst (normColor i.color) "_anime" == "red") then
    "red"
  else if items.any (fun i => strEndsWith (normColor i.color) "_anime") then
    "blue"
  else if items.any (fun i => replaceFirst (normColor i.color) "_anime" == "yellow") then
    "yellow"
  else if items.any (fun i => replaceFirst (normColor i.color) "_anime" == "blue"
      || replaceFirst (normColor i.color) "_anime" == "green") then
    "green"
  else "gray"

/-- Statuses handed to every registered `onBuildStateChange` callback, one
per detector cycle: `checkForChanges` (`notifier.ts` lines 262–266) computes
the global status and invokes every callback with it unconditionally, with
no comparison against a previously pushed value. -/
def detectorStatusPushes (cycles : List (List JenkinsItem)) : List String :=
  cycles.map computeGlobalStatus

/-- Model of the tray listener `updateTrayIcon` registered via
`onBuildStateChange` (`index.ts`): `lastTrayStatus` starts as `""`; a push
equal to it is ignored, otherwise it is recorded and the tray image redrawn.
Returns the new `lastTrayStatus` and whether the tray image was updated. -/
def updateTrayIcon (status lastTrayStatus : String) : String × Bool :=
  if status = lastTrayStatus then (lastTrayStatus, false) else (status, true)


/-! ### Claim C3 — terminal-notification condition -/

theorem notifCond_iff (prev : BuildState) (item : JenkinsItem) :
    ((strEndsWith prev.color "_anime"
        && ! strEndsWith (normColor item.color) "_anime")
      || ((item.lastBuild.isSome && item.lastBuild != prev.lastBuildNumber)
        && ! strEndsWith (normColor item.color) "_anime")) = true
    ↔ ((strEndsWith prev.color "_anime" = true
          ∨ (item.lastBuild ≠ none ∧ item.lastBuild ≠ prev.lastBuildNumber))
        ∧ strEndsWith (normColor item.color) "_anime" = false) := by
  simp only [Bool.or_eq_true, Bool.and_eq_true, Option.isSome_iff_ne_none,
    bne_iff_ne, Bool.not_eq_true', ne_eq]
  tauto

/-- Claim C3, counterexample.  The claim allows a notification on a
build-number **increase** (while now non-running) but the code notifies on
any build-number **change**: a job recorded as `{color: "blue", lastBuild: 5}`
and now observed as `{color: "red", lastBuild: 3}` — not previously running,
build number decreased from 5 to 3 — emits a `FAILED` notification, which the
claim as stated forbids. -/
theorem C3_terminal_notification_counterexample :
    (processItem (some { color := "blue", lastBuildNumber := some 5 })
        { fullname := "job", color := some "red", lastBuild := some 3 }).1
      = some "FAILED"
  ∧ strEndsWith "blue" "_anime" = false
  ∧ (3 : Nat) < 5 := by
  exact ⟨rfl, rfl, by decide⟩

/-- Claim C3 (amended): a job's first observation records state and emits
nothing, and on every later cycle a terminal notification is emitted iff the
job transitions from a running color encoding (`_anime` suffix) to a
non-running one, or its last-build number is non-null and **differs from**
(not necessarily exceeds) the previously recorded one while the job is now
non-running — and in either case only when the current base color maps to a
result label (unset or unmappable colors emit nothing); the emitted label is
exactly `buildResultLabel` of the current color, and the recorded state
becomes the current observation. -/
theorem C3_terminal_notification (prev : BuildState) (item : JenkinsItem) :
    ((processItem none item).1 = none)
  ∧ ((processItem (some prev) item).1 ≠ none ↔
      ((strEndsWith prev.color "_anime" = true
          ∨ (item.lastBuild ≠ none ∧ item.lastBuild ≠ prev.lastBuildNumber))
        ∧ strEndsWith (normColor item.color) "_anime" = false
        ∧ buildResultLabel (normColor item.color) ≠ none))
  ∧ ((processItem (some prev) item).1 ≠ none →
        (processItem (some prev) item).1 = buildResultLabel (normColor item.color))
  ∧ (processItem (some prev) item).2
      = { color := normColor item.color, lastBuildNumber := item.lastBuild } := by
  refine ⟨rfl, ?_, ?_, rfl⟩
  · show (if ((strEndsWith prev.color "_anime"
            && ! strEndsWith (normColor item.color) "_anime")
          || ((item.lastBuild.isSome && item.lastBuild != prev.lastBuildNumber)
            && ! strEndsWith (normColor item.color) "_anime")) = true then
          buildResultLabel (normColor item.color)
        else none) ≠ none ↔ _
    by_cases hc : ((strEndsWith prev.color "_anime"
          && ! strEndsWith (normColor item.color) "_anime")
        || ((item.lastBuild.isSome && item.lastBuild != prev.lastBuildNumber)
          && ! strEndsWith (normColor item.color) "_anime")) = true
    · rw [if_pos hc]
      have hprop := (notifCond_iff prev item).mp hc
      constructor
      · intro h
        exact ⟨hprop.1, hprop.2, h⟩
      · intro h
        exact h.2.2
    · rw [if_neg hc]
      constructor
      · intro h
        exact absurd rfl h
      · rintro ⟨h1, h2, _⟩
        exact (hc ((notifCond_iff prev item).mpr ⟨h1, h2⟩)).elim
  · show (if ((strEndsWith prev.color "_anime"
            && ! strEndsWith (normColor item.color) "_anime")
          || ((item.lastBuild.isSome && item.lastBuild != prev.lastBuildNumber)
            && ! strEndsWith (normColor item.color) "_anime")) = true then
          buildResultLabel (normColor item.color)
        else none) ≠ none → _
    by_cases hc : ((strEndsWith prev.color "_anime"
          && ! strEndsWith (normColor item.color) "_anime")
        || ((item.lastBuild.isSome && item.lastBuild != prev.lastBuildNumber)
          && ! strEndsWith (normColor item.color) "_anime")) = true
    · rw [if_pos hc]
      intro _
      show (processItem (some prev) item).1 = _
      exact if_pos hc
    · rw [if_neg hc]
      intro h
      exact absurd rfl h

/-! ### Claim C4 — global-status push and tray-side deduplication -/

/-- Claim C4, counterexample.  The claim states that a cycle whose recomputed
global status equals the previously pushed one invokes no listener.  The code
(`notifier.ts` lines 262–266) invokes every registered callback on every
cycle with no comparison to a previous value: two consecutive cycles over the
same single-job inventory push `green` to the listeners twice; the second
push should not happen per the claim. -/
theorem C4_status_push_counterexample :
    detectorStatusPushes
        [[{ fullname := "job", color := some "blue", lastBuild := some 1 }],
         [{ fullname := "job", color := some "blue", lastBuild := some 1 }]]
      = ["green", "green"] := by
  rfl

/-- Claim C4 (amended): on every detector poll cycle the global status is
recomputed from that cycle's inventory snapshot and pushed to the registered
listeners unconditionally — one push per cycle, equal values or not; the
deduplication sits inside the tray-icon listener, which redraws the tray
image iff the pushed value differs from the last value it applied
(`lastTrayStatus`), recording the value exactly when it redraws. -/
theorem C4_status_push (cycles : List (List JenkinsItem)) (st last : String) :
    (detectorStatusPushes cycles).length = cycles.length
  ∧ ((updateTrayIcon st last).2 = true ↔ st ≠ last)
  ∧ ((updateTrayIcon st last).1 = if st = last then last else st) := by
  refine ⟨by simp [detectorStatusPushes], ?_, ?_⟩
  · unfold updateTrayIcon
    by_cases h : st = last
    · simp [h]
    · simp [h]
  · unfold updateTrayIcon
    by_cases h : st = last
    · simp [h]
    · simp [h]


/-! ### Pending-input notifications (`checkPendingInputs`, `notifier.ts` 317–348) -/

/-- Pending pipeline input, from `interface JenkinsPendingInput` in
`jenkins-api.ts`, restricted to the fields the notifier reads. -/
structure JenkinsPendingInput where
  id : String
  message : String
  deriving Repr, DecidableEq

/-- Model of the filter `item.color?.endsWith('_anime')`: an absent color is
`undefined`, the optional chain yields `undefined`, which is falsy. -/
def colorIsRunning (c : Option String) : Bool :=
  match c with
  | none => false
  | some s => strEndsWith s "_anime"

/-- The composite key recorded in the notified-input set:
`fullname:buildNumber:inputId`. -/
def inputKey (fullname : String) (buildNumber : Nat) (id : String) : String :=
  fullname ++ ":" ++ toString buildNumber ++ ":" ++ id

/-- Model of the inner loop of `checkPendingInputs` over one item's pending
inputs: each input whose composite key is not in the notified set has its key
added and a notification emitted; keys already in the set emit nothing.
Returns the updated set and the keys notified, in order. -/
def processInputs (notified : List String) (fullname : String) (bn : Nat) :
    List JenkinsPendingInput → List String × List String
  | [] => (notified, [])
  | input :: rest =>
      if inputKey fullname bn input.id ∈ notified then
        processInputs notified fullname bn rest
      else
        ((processInputs (inputKey fullname bn input.id :: notified) fullname bn rest).1,
         inputKey fullname bn input.id
           :: (processInputs (inputKey fullname bn input.id :: notified) fullname bn rest).2)

/-- Model of one `checkPendingInputs` cycle (`notifier.ts` lines 317–348).
Each element pairs an inventory item with the outcome of
`getPendingInputActions` for its last build: `none` models the remote query
throwing (caught and skipped).  Only items whose color carries the `_anime`
suffix and that have a last build are queried. -/
def checkPendingInputs (notified : List String) :
    List (JenkinsItem × Option (List JenkinsPendingInput)) →
      List String × List String
  | [] => (notified, [])
  | (item, res) :: rest =>
      if colorIsRunning item.color then
        match item.lastBuild with
        | none => checkPendingInputs notified rest
        | some bn =>
            match res with
            | none => checkPendingInputs notified rest
            | some inputs =>
                ((checkPendingInputs (processInputs notified item.fullname bn inputs).1 rest).1,
                 (processInputs notified item.fullname bn inputs).2
                   ++ (checkPendingInputs (processInputs notified item.fullname bn inputs).1 rest).2)
      else checkPendingInputs notified rest

/-- The composite keys a cycle observes: the keys of every pending input the
cycle's traversal reaches (running items with a last build whose input query
succeeded). -/
def observedKeys : List (JenkinsItem × Option (List JenkinsPendingInput)) → List String
  | [] => []
  | (item, res) :: rest =>
      (if colorIsRunning item.color then
        match item.lastBuild with
        | none => []
        | some bn =>
            match res with
            | none => []
            | some inputs => inputs.map (fun i => inputKey item.fullname bn i.id)
      else []) ++ observedKeys rest

/-- The notified-input set threaded through successive detector cycles,
together with each cycle's emitted notifications. -/
def runInputCycles (notified : List String) :
    List (List (JenkinsItem × Option (List JenkinsPendingInput))) →
      List String × List (List String)
  | [] => (notified, [])
  | c :: cs =>
      ((runInputCycles (checkPendingInputs notified c).1 cs).1,
       (checkPendingInputs notified c).2
         :: (runInputCycles (checkPendingInputs notified c).1 cs).2)


theorem processInputs_spec (fullname : String) (bn : Nat) (k : String)
    (inputs : List JenkinsPendingInput) :
    ∀ notified : List String,
      (k ∈ (processInputs notified fullname bn inputs).1 ↔
          k ∈ notified ∨ k ∈ inputs.map (fun i => inputKey fullname bn i.id))
      ∧ (processInputs notified fullname bn inputs).2.count k
          = (if k ∈ inputs.map (fun i => inputKey fullname bn i.id) ∧ k ∉ notified
             then 1 else 0) := by
  induction inputs with
  | nil =>
      intro notified
      simp [processInputs]
  | cons input rest ih =>
      intro notified
      by_cases hmem : inputKey fullname bn input.id ∈ notified
      · have h := ih notified
        constructor
        · rw [processInputs, if_pos hmem]
          rw [h.1]
          simp only [List.map_cons, List.mem_cons]
          constructor
          · rintro (hn | hr)
            · exact Or.inl hn
            · exact Or.inr (Or.inr hr)
          · rintro (hn | hk | hr)
            · exact Or.inl hn
            · subst hk
              exact Or.inl hmem
            · exact Or.inr hr
        · rw [processInputs, if_pos hmem]
          rw [h.2]
          by_cases hk : k = inputKey fullname bn input.id
          · subst hk
            simp [hmem]
          · simp only [List.map_cons, List.mem_cons]
            congr 1
            simp only [eq_iff_iff]
            constructor
            · rintro ⟨hr, hn⟩
              exact ⟨Or.inr hr, hn⟩
            · rintro ⟨hk2 | hr, hn⟩
              · exact absurd hk2 hk
              · exact ⟨hr, hn⟩
      · have h := ih (inputKey fullname bn input.id :: notified)
        constructor
        · rw [processInputs, if_neg hmem]
          show k ∈ (processInputs (inputKey fullname bn input.id :: notified)
              fullname bn rest).1 ↔ _
          rw [h.1]
          simp only [List.mem_cons, List.map_cons]
          tauto
        · rw [processInputs, if_neg hmem]
          show List.count k (inputKey fullname bn input.id
              :: (processInputs (inputKey fullname bn input.id :: notified)
                    fullname bn rest).2) = _
          rw [List.count_cons]
          rw [h.2]
          by_cases hk : k = inputKey fullname bn input.id
          · subst hk
            simp [hmem]
          · have hbeq : (k == inputKey fullname bn input.id) = false := by
              simp [beq_iff_eq, hk]
            simp only [hbeq, if_false, List.map_cons, List.mem_cons]
            by_cases hr : k ∈ rest.map (fun i => inputKey fullname bn i.id)
              <;> by_cases hn : k ∈ notified
              <;> simp [hr, hn, hk]
              <;> exact fun h2 => hk h2.symm

theorem checkPendingInputs_spec (k : String)
    (c : List (JenkinsItem × Option (List JenkinsPendingInput))) :
    ∀ notified : List String,
      (k ∈ (checkPendingInputs notified c).1 ↔ k ∈ notified ∨ k ∈ observedKeys c)
      ∧ (checkPendingInputs notified c).2.count k
          = (if k ∈ observedKeys c ∧ k ∉ notified then 1 else 0) := by
  induction c with
  | nil =>
      intro notified
      simp [checkPendingInputs, observedKeys]
  | cons p rest ih =>
      intro notified
      obtain ⟨item, res⟩ := p
      rw [checkPendingInputs, observedKeys]
      by_cases hrun : colorIsRunning item.color = true
      · rw [if_pos hrun, if_pos hrun]
        cases item.lastBuild with
        | none =>
            have h := ih notified
            simpa using h
        | some bn =>
            cases res with
            | none =>
                have h := ih notified
                simpa using h
            | some inputs =>
                have hp := processInputs_spec item.fullname bn k inputs notified
                have h := ih (processInputs notified item.fullname bn inputs).1
                constructor
                · rw [h.1, hp.1]
                  simp only [List.mem_append]
                  tauto
                · rw [List.count_append, h.2, hp.2]
                  by_cases h1 : k ∈ inputs.map (fun i => inputKey item.fullname bn i.id)
                    <;> by_cases h2 : k ∈ observedKeys rest
                    <;> by_cases h3 : k ∈ notified
                    <;> simp [h1, h2, h3, hp.1]
      · rw [if_neg hrun, if_neg hrun]
        have h := ih notified
        simpa using h

theorem runInputCycles_spec (k : String)
    (cs : List (List (JenkinsItem × Option (List JenkinsPendingInput)))) :
    ∀ notified : List String,
      (k ∈ (runInputCycles notified cs).1 ↔
          k ∈ notified ∨ ∃ c ∈ cs, k ∈ observedKeys c)
      ∧ ((runInputCycles notified cs).2.map (fun em => em.count k)).sum
          = (if (∃ c ∈ cs, k ∈ observedKeys c) ∧ k ∉ notified then 1 else 0) := by
  induction cs with
  | nil =>
      intro notified
      simp [runInputCycles]
  | cons c cs ih =>
      intro notified
      rw [runInputCycles]
      have hc := checkPendingInputs_spec k c notified
      have h := ih (checkPendingInputs notified c).1
      constructor
      · show k ∈ (runInputCycles (checkPendingInputs notified c).1 cs).1 ↔ _
        rw [h.1, hc.1]
        simp only [List.exists_mem_cons_iff]
        tauto
      · show (List.map (fun em => em.count k)
            ((checkPendingInputs notified c).2
              :: (runInputCycles (checkPendingInputs notified c).1 cs).2)).sum = _
        rw [List.map_cons, List.sum_cons, h.2, hc.2]
        simp only [List.exists_mem_cons_iff]
        by_cases h1 : k ∈ observedKeys c
          <;> by_cases h2 : ∃ d ∈ cs, k ∈ observedKeys d
          <;> by_cases h3 : k ∈ notified
          <;> simp [h1, h2, h3, hc.1]

theorem runInputCycles_append
    (pre cs : List (List (JenkinsItem × Option (List JenkinsPendingInput)))) :
    ∀ notified, runInputCycles notified (pre ++ cs)
      = ((runInputCycles (runInputCycles notified pre).1 cs).1,
         (runInputCycles notified pre).2
           ++ (runInputCycles (runInputCycles notified pre).1 cs).2) := by
  induction pre with
  | nil =>
      intro notified
      rfl
  | cons c pre ih =>
      intro notified
      show ((runInputCycles (checkPendingInputs notified c).1 (pre ++ cs)).1,
            (checkPendingInputs notified c).2
              :: (runInputCycles (checkPendingInputs notified c).1 (pre ++ cs)).2) = _
      rw [ih (checkPendingInputs notified c).1]
      rfl

/-- Claim C5: with the notified-input set not containing composite key `k`
initially, the detector emits `k`'s input-required notification exactly once
over any sequence of poll cycles in which `k` is observed (and never if it is
never observed): the cycle emissions decompose cycle by cycle, and the cycle
following any earlier cycles `pre` emits `k` iff that cycle observes `k` and
no earlier cycle observed it — i.e. the notification fires on first sighting
only, and every later cycle observing the same key emits nothing. -/
theorem C5_input_dedup (k : String) (notified : List String)
    (cycles pre post : List (List (JenkinsItem × Option (List JenkinsPendingInput))))
    (c : List (JenkinsItem × Option (List JenkinsPendingInput)))
    (hk : k ∉ notified) (hsplit : cycles = pre ++ c :: post) :
    (((runInputCycles notified cycles).2.map (fun em => em.count k)).sum
        = if ∃ d ∈ cycles, k ∈ observedKeys d then 1 else 0)
  ∧ ((runInputCycles notified cycles).2
        = (runInputCycles notified pre).2
          ++ (checkPendingInputs (runInputCycles notified pre).1 c).2
             :: (runInputCycles
                  (checkPendingInputs (runInputCycles notified pre).1 c).1 post).2)
  ∧ (k ∈ (checkPendingInputs (runInputCycles notified pre).1 c).2 ↔
        k ∈ observedKeys c ∧ ∀ d ∈ pre, k ∉ observedKeys d) := by
  subst hsplit
  have hcount := (checkPendingInputs_spec k c (runInputCycles notified pre).1).2
  have hsetPre := (runInputCycles_spec k pre notified).1
  refine ⟨?_, ?_, ?_⟩
  · have h := (runInputCycles_spec k (pre ++ c :: post) notified).2
    rw [h, if_congr (and_iff_left hk) rfl rfl]
  · rw [runInputCycles_append pre (c :: post) notified]
    rfl
  · constructor
    · intro hmem
      have hpos : 0 < ((checkPendingInputs (runInputCycles notified pre).1 c).2).count k :=
        List.count_pos_iff.mpr hmem
      rw [hcount] at hpos
      by_cases hcond : k ∈ observedKeys c ∧ k ∉ (runInputCycles notified pre).1
      · refine ⟨hcond.1, ?_⟩
        intro d hd hobs
        exact hcond.2 (hsetPre.mpr (Or.inr ⟨d, hd, hobs⟩))
      · rw [if_neg hcond] at hpos
        exact absurd hpos (by omega)
    · rintro ⟨hobs, hnone⟩
      have hnotin : k ∉ (runInputCycles notified pre).1 := by
        intro hin
        rcases hsetPre.mp hin with hn | ⟨d, hd, ho⟩
        · exact hk hn
        · exact hnone d hd ho
      have hone : ((checkPendingInputs (runInputCycles notified pre).1 c).2).count k = 1 := by
        rw [hcount, if_pos ⟨hobs, hnotin⟩]
      exact List.count_pos_iff.mp (by omega)

/-- Claim C5 witness: one pending input observed across 3 consecutive
detector cycles (the middle cycle viewed as following the first), starting
from an empty notified-input set: the total emission count for its composite
key over the whole trace is governed by the theorem, and the middle cycle —
whose key was already sighted in the first cycle — emits iff no earlier
cycle observed it. -/
theorem C5_input_dedup_witness :
    (((runInputCycles [] [([({ fullname := "job", color := some "blue_anime", lastBuild := some 5 },
      some [{ id := "approve", message := "Deploy?" }])]
    : List (JenkinsItem × Option (List JenkinsPendingInput))),
       ([({ fullname := "job", color := some "blue_anime", lastBuild := some 5 },
      some [{ id := "approve", message := "Deploy?" }])]
    : List (JenkinsItem × Option (List JenkinsPendingInput))),
       ([({ fullname := "job", color := some "blue_anime", lastBuild := some 5 },
      some [{ id := "approve", message := "Deploy?" }])]
    : List (JenkinsItem × Option (List JenkinsPendingInput)))]).2.map (fun em => em.count "job:5:approve")).sum
        = if ∃ d ∈ [([({ fullname := "job", color := some "blue_anime", lastBuild := some 5 },
      some [{ id := "approve", message := "Deploy?" }])]
    : List (JenkinsItem × Option (List JenkinsPendingInput))),
                    ([({ fullname := "job", color := some "blue_anime", lastBuild := some 5 },
      some [{ id := "approve", message := "Deploy?" }])]
    : List (JenkinsItem × Option (List JenkinsPendingInput))),
                    ([({ fullname := "job", color := some "blue_anime", lastBuild := some 5 },
      some [{ id := "approve", message := "Deploy?" }])]
    : List (JenkinsItem × Option (List JenkinsPendingInput)))], "job:5:approve" ∈ observedKeys d then 1 else 0)
  ∧ ((runInputCycles [] [([({ fullname := "job", color := some "blue_anime", lastBuild := some 5 },
      some [{ id := "approve", message := "Deploy?" }])]
    : List (JenkinsItem × Option (List JenkinsPendingInput))),
       ([({ fullname := "job", color := some "blue_anime", lastBuild := some 5 },
      some [{ id := "approve", message := "Deploy?" }])]
    : List (JenkinsItem × Option (List JenkinsPendingInput))),
       ([({ fullname := "job", color := some "blue_anime", lastBuild := some 5 },
      some [{ id := "approve", message := "Deploy?" }])]
    : List (JenkinsItem × Option (List JenkinsPendingInput)))]).2
        = (runInputCycles [] [([({ fullname := "job", color := some "blue_anime", lastBuild := some 5 },
      some [{ id := "approve", message := "Deploy?" }])]
    : List (JenkinsItem × Option (List JenkinsPendingInput)))]).2
          ++ (checkPendingInputs (runInputCycles [] [([({ fullname := "job", color := some "blue_anime", lastBuild := some 5 },
      some [{ id := "approve", message := "Deploy?" }])]
    : List (JenkinsItem × Option (List JenkinsPendingInput)))]).1
                ([({ fullname := "job", color := some "blue_anime", lastBuild := some 5 },
      some [{ id := "approve", message := "Deploy?" }])]
    : List (JenkinsItem × Option (List JenkinsPendingInput)))).2
             :: (runInputCycles
                  (checkPendingInputs (runInputCycles [] [([({ fullname := "job", color := some "blue_anime", lastBuild := some 5 },
      some [{ id := "approve", message := "Deploy?" }])]
    : List (JenkinsItem × Option (List JenkinsPendingInput)))]).1
                    ([({ fullname := "job", color := some "blue_anime", lastBuild := some 5 },
      some [{ id := "approve", message := "Deploy?" }])]
    : List (JenkinsItem × Option (List JenkinsPendingInput)))).1
                  [([({ fullname := "job", color := some "blue_anime", lastBuild := some 5 },
      some [{ id := "approve", message := "Deploy?" }])]
    : List (JenkinsItem × Option (List JenkinsPendingInput)))]).2)
  ∧ ("job:5:approve" ∈ (checkPendingInputs (runInputCycles [] [([({ fullname := "job", color := some "blue_anime", lastBuild := some 5 },
      some [{ id := "approve", message := "Deploy?" }])]
    : List (JenkinsItem × Option (List JenkinsPendingInput)))]).1
        ([({ fullname := "job", color := some "blue_anime", lastBuild := some 5 },
      some [{ id := "approve", message := "Deploy?" }])]
    : List (JenkinsItem × Option (List JenkinsPendingInput)))).2 ↔
      "job:5:approve" ∈ observedKeys (([({ fullname := "job", color := some "blue_anime", lastBuild := some 5 },
      some [{ id := "approve", message := "Deploy?" }])]
    : List (JenkinsItem × Option (List JenkinsPendingInput))))
        ∧ ∀ d ∈ [([({ fullname := "job", color := some "blue_anime", lastBuild := some 5 },
      some [{ id := "approve", message := "Deploy?" }])]
    : List (JenkinsItem × Option (List JenkinsPendingInput)))], "job:5:approve" ∉ observedKeys d) :=
  C5_input_dedup "job:5:approve" []
    [([({ fullname := "job", color := some "blue_anime", lastBuild := some 5 },
      some [{ id := "approve", message := "Deploy?" }])]
    : List (JenkinsItem × Option (List JenkinsPendingInput))),
     ([({ fullname := "job", color := some "blue_anime", lastBuild := some 5 },
      some [{ id := "approve", message := "Deploy?" }])]
    : List (JenkinsItem × Option (List JenkinsPendingInput))),
     ([({ fullname := "job", color := some "blue_anime", lastBuild := some 5 },
      some [{ id := "approve", message := "Deploy?" }])]
    : List (JenkinsItem × Option (List JenkinsPendingInput)))]
    [([({ fullname := "job", color := some "blue_anime", lastBuild := some 5 },
      some [{ id := "approve", message := "Deploy?" }])]
    : List (JenkinsItem × Option (List JenkinsPendingInput)))]
    [([({ fullname := "job", color := some "blue_anime", lastBuild := some 5 },
      some [{ id := "approve", message := "Deploy?" }])]
    : List (JenkinsItem × Option (List JenkinsPendingInput)))]
    (([({ fullname := "job", color := some "blue_anime", lastBuild := some 5 },
      some [{ id := "approve", message := "Deploy?" }])]
    : List (JenkinsItem × Option (List JenkinsPendingInput))))
    (by simp) rfl

/-! ### Renderer polling hook `usePolling` (`useJenkins.ts` lines 52–89)

The hook's behaviour under the host framework's (React's) documented
lifecycle rules, which the embedding encodes:

* `refresh` is created with `useCallback(..., [data])` (lines 64–75), so its
  identity changes exactly when `data` changed since the previous render;
* the effect (lines 77–86) lists `[intervalMs, enabled, refresh, appVisible]`
  as dependencies: whenever one of them changes, the previous effect's
  cleanup runs first — `clearInterval` on the timer it started, so the
  previous timer always stops before any new one starts — and then the body
  runs again: it returns early when disabled, when `intervalMs ≤ 0`, or when
  the app is invisible, and otherwise calls `refresh()` immediately and
  starts a fresh interval timer;
* a completed fetch stores its result with `setData`; the IPC bridge
  deserializes a fresh object for every call, so a completed fetch changes
  `data`'s identity (modelled by the `changed` flag of `fetchDone`) and
  thereby `refresh`'s identity, re-running the effect;
* the shared visibility tracker (lines 20–32) drops events that do not
  change the visibility value.

`fetchLog` records the times at which `fetchFn` is invoked. -/

/-- State of one `usePolling` subscription: the current dependency values,
whether an interval timer is active, the identity version of `data`, and the
invocation times of `fetchFn`. -/
structure HookState where
  visible : Bool
  enabled : Bool
  intervalMs : Nat
  hasTimer : Bool
  dataVer : Nat
  fetchLog : List Nat
  deriving Repr, DecidableEq

/-- One run of the effect at time `t`: cleanup stops the previous timer, then
the body either returns early (disabled, non-positive interval, or hidden)
or fetches immediately and starts the interval timer. -/
def runEffect (s : HookState) (t : Nat) : HookState :=
  let s0 := { s with hasTimer := false }
  if s0.enabled && decide (0 < s0.intervalMs) && s0.visible then
    { s0 with fetchLog := s0.fetchLog ++ [t], hasTimer := true }
  else s0

/-- Events driving a subscription: a fetch completing at time `t` (`changed`
is whether its result differs from the current `data`), the app's visibility
changing, and the interval timer firing. -/
inductive PollEvent where
  | fetchDone (t : Nat) (changed : Bool)
  | setVisible (t : Nat) (v : Bool)
  | tick (t : Nat)
  deriving Repr, DecidableEq

/-- One event step of the subscription.  A fetch completing with a changed
result bumps `data`'s identity, hence `refresh`'s, hence re-runs the effect;
a real visibility change re-runs the effect; a timer tick fetches when a
timer is active. -/
def pollStep (s : HookState) : PollEvent → HookState
  | .fetchDone t changed =>
      if changed then runEffect { s with dataVer := s.dataVer + 1 } t else s
  | .setVisible t v =>
      if v = s.visible then s else runEffect { s with visible := v } t
  | .tick t =>
      if s.hasTimer then { s with fetchLog := s.fetchLog ++ [t] } else s

/-- Mounting the hook at time `0` runs the effect once. -/
def pollMount (visible enabled : Bool) (intervalMs : Nat) : HookState :=
  runEffect { visible := visible, enabled := enabled, intervalMs := intervalMs,
              hasTimer := false, dataVer := 0, fetchLog := [] } 0

/-- Folding a list of events through the subscription. -/
def runPoll (s : HookState) : List PollEvent → HookState
  | [] => s
  | ev :: evs => runPoll (pollStep s ev) evs

/-- Claim C9, evidence of the code bug.  A visible, enabled subscription with
a 10-second interval mounts and fetches at `t = 0`; its fetch resolves at
`t = 1000` with a fresh result object, which changes `data`, hence
`refresh`'s identity, hence re-runs the effect — issuing a second fetch at
`t = 1000`, far before the configured 10-second mark, contrary to the claim's
(and the hook's own doc comments') fixed-interval cadence.  The visibility
half of the claim does hold: after hiding at `t = 3000` a timer tick causes
no fetch, and becoming visible again at `t = 20000` fetches exactly once,
immediately. -/
theorem C9_polling_refetch_on_data_change :
    (runPoll (pollMount true true 10000) [PollEvent.fetchDone 1000 true]).fetchLog
      = [0, 1000]
  ∧ (runPoll (pollMount true true 10000)
      [PollEvent.setVisible 3000 false, PollEvent.tick 10000]).fetchLog = [0]
  ∧ (runPoll (pollMount true true 10000)
      [PollEvent.setVisible 3000 false,
       PollEvent.setVisible 20000 true]).fetchLog = [0, 20000] := by
  exact ⟨rfl, rfl, rfl⟩

end PipelineMonitor
